import Mathlib

/-!
# Index bundle lifecycle and posting-cache loader

A shallow embedding of `indices/indices.c`: `indices_init`, `indices_open`,
`indices_close` and `indices_cache`.

Pointers are `Option`s (`none` is `NULL`).  Calls into the collaborating
modules (term index, math index, key-value store, blob index, posting cache)
are recorded, in program order, in a list of `call`s; what a collaborator
returns is supplied from outside, so every theorem ranges over every
behaviour of the collaborators.
-/

namespace Indices

/-! ## Data model -/

/-- A non-`NULL` pointer handed out by a collaborator. -/
abbrev handle := Nat

/-- The two values of `enum indices_open_mode`. -/
inductive indices_open_mode where
  | INDICES_OPEN_RD
  | INDICES_OPEN_RW
  deriving DecidableEq, Repr

/-- The mode constants `indices_open` passes to the collaborators' opens. -/
inductive open_flag where
  | TERM_INDEX_OPEN_CREATE
  | MATH_INDEX_READ_ONLY
  | MATH_INDEX_WRITE
  | KEYVAL_DB_OPEN_RD
  | KEYVAL_DB_OPEN_WR
  deriving DecidableEq, Repr

/-- One node of the cache tree: a term identifier and the posting list it
refers to. -/
structure postcache_item where
  term_id : Nat
  posting : handle
  deriving DecidableEq, Repr

/-- The `struct postcache_pool`.  `trp_root` is the tree of cached items, kept
as the list of its items in insertion order; the empty list is the `NULL`
root. -/
structure postcache_pool where
  trp_root : List postcache_item
  mem_usage : Nat
  mem_limit : Nat
  deriving DecidableEq, Repr

/-- The `struct indices`. -/
structure indices where
  ti : Option handle
  mi : Option handle
  ofs_db : Option handle
  url_bi : Option handle
  txt_bi : Option handle
  postcache : postcache_pool
  deriving DecidableEq, Repr

/-- A call into a collaborating module, with its arguments. -/
inductive call where
  | mkdir_p (path : String)
  | term_index_open (path : String) (flag : open_flag)
  | math_index_open (path : String) (flag : open_flag)
  | keyval_db_open_under (name : String) (path : String) (flag : open_flag)
  | blob_index_open (path : String) (flag : String)
  | postcache_init (mem_limit : Nat)
  | term_index_close (h : handle)
  | math_index_close (h : handle)
  | keyval_db_close (h : handle)
  | blob_index_close (h : handle)
  | postcache_free
  deriving DecidableEq, Repr

/-- Whether a call is one of the five sub-resource opens. -/
def call.is_open : call → Bool
  | .term_index_open _ _ => true
  | .math_index_open _ _ => true
  | .keyval_db_open_under _ _ _ => true
  | .blob_index_open _ _ => true
  | _ => false

/-- Whether a call releases something: a sub-resource close or the cache's
free. -/
def call.is_release : call → Bool
  | .term_index_close _ => true
  | .math_index_close _ => true
  | .keyval_db_close _ => true
  | .blob_index_close _ => true
  | .postcache_free => true
  | _ => false

/-- What each of the five sub-resource opens returns when it is called
(`none` is `NULL`, the open failed). -/
structure open_outcomes where
  term_index : Option handle
  math_index : Option handle
  offset_db : Option handle
  blob_index_url : Option handle
  blob_index_txt : Option handle
  deriving DecidableEq, Repr

/-- The outcome of the open of step `k` (1 = term index, 2 = math index,
3 = offset store, 4 = URL blob index, 5 = text blob index). -/
def open_outcomes.step (w : open_outcomes) : Nat → Option handle
  | 1 => w.term_index
  | 2 => w.math_index
  | 3 => w.offset_db
  | 4 => w.blob_index_url
  | 5 => w.blob_index_txt
  | _ => none

/-- The slot of the bundle that step `k` fills. -/
def indices.slot (i : indices) : Nat → Option handle
  | 1 => i.ti
  | 2 => i.mi
  | 3 => i.ofs_db
  | 4 => i.url_bi
  | 5 => i.txt_bi
  | _ => none

/-! ## Posting cache operations (collaborator, `postcache.c`) -/

/-- Modelled from the spec: `postcache_init` is not among the sources.  It
makes an empty cache with the given memory limit and nothing used. -/
def postcache_init (_pool : postcache_pool) (mem_limit : Nat) : postcache_pool :=
  { trp_root := [], mem_usage := 0, mem_limit := mem_limit }

/-- Modelled from the spec: `postcache_free` is not among the sources.  It
releases the tree of the cache (the posting lists themselves stay with the
term index) and resets the memory used; the limit is kept. -/
def postcache_free (pool : postcache_pool) : postcache_pool :=
  { trp_root := [], mem_usage := 0, mem_limit := pool.mem_limit }

/-! ## `indices_init` -/

/-- The function `indices_init`: all five slots and the cache root are set to
`NULL`; the other two fields of the cache are left as they were. -/
def indices_init (i : indices) : indices :=
  { ti := none, mi := none, ofs_db := none, url_bi := none, txt_bi := none,
    postcache := { i.postcache with trp_root := [] } }

/-! ## `indices_open` -/

/-- What `indices_open` leaves behind: the return value, the bundle, the
collaborator calls made and the lines written to `stderr`. -/
structure open_result where
  open_err : Bool
  indices : indices
  calls : List call
  stderr : List String
  deriving DecidableEq, Repr

/-- The code at the label `skip:` of `indices_open`: the locals are stored
into the bundle and `open_err` is returned. -/
def indices_open_skip (term_index math_index offset_db blob_index_url
    blob_index_txt : Option handle) (postcache : postcache_pool)
    (open_err : Bool) (calls : List call) (stderr : List String) : open_result :=
  { open_err := open_err,
    indices := { ti := term_index, mi := math_index, ofs_db := offset_db,
                 url_bi := blob_index_url, txt_bi := blob_index_txt,
                 postcache := postcache },
    calls := calls, stderr := stderr }

/-- The flag for the math index: the conditional expression of line 55. -/
def math_flag (mode : indices_open_mode) : open_flag :=
  if mode = .INDICES_OPEN_RD then .MATH_INDEX_READ_ONLY else .MATH_INDEX_WRITE

/-- The flag for the offset store: the conditional expression of line 68. -/
def keyval_flag (mode : indices_open_mode) : open_flag :=
  if mode = .INDICES_OPEN_RD then .KEYVAL_DB_OPEN_RD else .KEYVAL_DB_OPEN_WR

/-- The mode string for a blob index: the conditional expression of lines 87
and 97. -/
def blob_flag (mode : indices_open_mode) : String :=
  if mode = .INDICES_OPEN_RD then "r" else "w+"

/-- The function `indices_open`.  `w` is what the collaborators' opens
return; `stack` is the content of the uninitialised local `postcache`, of
which only `trp_root` is set before the opens.  Every field of the bundle is
overwritten at `skip:`, so the previous bundle does not matter. -/
def indices_open (w : open_outcomes) (stack : postcache_pool)
    (_indices : indices) (index_path : String) (mode : indices_open_mode) :
    open_result :=
  let postcache : postcache_pool := { stack with trp_root := [] }
  let path := index_path ++ "/term"
  let c1 := [call.mkdir_p path, call.term_index_open path .TERM_INDEX_OPEN_CREATE]
  match w.term_index with
  | none =>
    indices_open_skip none none none none none postcache true c1
      ["cannot create/open term index.\n"]
  | some term_index =>
    let c2 := c1 ++ [call.math_index_open index_path (math_flag mode)]
    match w.math_index with
    | none =>
      indices_open_skip (some term_index) none none none none postcache true c2
        ["cannot create/open math index.\n"]
    | some math_index =>
      let c3 := c2 ++ [call.keyval_db_open_under "offset.kvdb" index_path
                         (keyval_flag mode)]
      match w.offset_db with
      | none =>
        indices_open_skip (some term_index) (some math_index) none none none
          postcache true c3 ["cannot create/open offset DB.\n"]
      | some offset_db =>
        let c4 := c3 ++ [call.blob_index_open (index_path ++ "/" ++ "url")
                           (blob_flag mode)]
        match w.blob_index_url with
        | none =>
          indices_open_skip (some term_index) (some math_index) (some offset_db)
            none none postcache true c4 ["cannot create/open URL blob index.\n"]
        | some blob_index_url =>
          let c5 := c4 ++ [call.blob_index_open (index_path ++ "/" ++ "doc")
                             (blob_flag mode)]
          match w.blob_index_txt with
          | none =>
            indices_open_skip (some term_index) (some math_index)
              (some offset_db) (some blob_index_url) none postcache true c5
              ["cannot create/open text blob index.\n"]
          | some blob_index_txt =>
            indices_open_skip (some term_index) (some math_index)
              (some offset_db) (some blob_index_url) (some blob_index_txt)
              (postcache_init postcache 0) false
              (c5 ++ [call.postcache_init 0]) []

/-! ## `indices_close` -/

/-- Closing one slot: if it holds a handle, the close is called on it. -/
def close_slot (slot : Option handle) (close : handle → call) : List call :=
  match slot with
  | some h => [close h]
  | none => []

/-- The function `indices_close`: the bundle it leaves and the collaborator
calls it makes, in order. -/
def indices_close (i : indices) : indices × List call :=
  let c1 := close_slot i.ti call.term_index_close
  let c2 := close_slot i.mi call.math_index_close
  let c3 := close_slot i.ofs_db call.keyval_db_close
  let c4 := close_slot i.url_bi call.blob_index_close
  let c5 := close_slot i.txt_bi call.blob_index_close
  let pc := if i.postcache.trp_root ≠ [] then (postcache_free i.postcache, [call.postcache_free])
            else (i.postcache, [])
  ({ ti := none, mi := none, ofs_db := none, url_bi := none, txt_bi := none,
     postcache := pc.1 },
   c1 ++ c2 ++ c3 ++ c4 ++ c5 ++ pc.2)

/-! ## `indices_cache` -/

/-- The number of values of a `uint32_t`, 2^32: the type of `termN` and `df`
and of the loop counter `term_id` (a `term_id_t`, printed with `%u`). -/
def UINT32_SIZE : Nat := 4294967296

/-- What `postcache_add_term_posting` returns, as far as `indices_cache`
tells the values apart: it only compares with
`POSTCACHE_EXCEED_MEM_LIMIT`. -/
inductive postcache_err where
  | POSTCACHE_EXCEED_MEM_LIMIT
  | other
  deriving DecidableEq, Repr

/-- The term index as `indices_cache` reads it: what `term_index_get_termN`,
`term_index_get_df`, `term_lookup_r` and `term_index_get_posting` return. -/
structure term_index where
  get_termN : Nat
  get_df : Nat → Nat
  lookup_r : Nat → String
  get_posting : Nat → Option handle

/-- The insertion into the cache, as a collaborator: the cache it leaves and
the value it returns. -/
abbrev add_fn := postcache_pool → Nat → handle → postcache_pool × postcache_err

/-- Modelled from the spec: `postcache_set_mem_limit` is not among the
sources.  It replaces the budget and touches nothing else. -/
def postcache_set_mem_limit (pool : postcache_pool) (mem_limit : Nat) :
    postcache_pool :=
  { pool with mem_limit := mem_limit }

/-- Modelled from the spec: `postcache_add_term_posting` is not among the
sources.  With `cost term_id posting` the memory the entry takes, the entry is
admitted and accounted when it fits in the limit, and refused whole
otherwise. -/
def postcache_add_term_posting (cost : Nat → handle → Nat) : add_fn :=
  fun pool term_id posting =>
    if pool.mem_usage + cost term_id posting ≤ pool.mem_limit then
      ({ pool with trp_root := pool.trp_root ++ [⟨term_id, posting⟩],
                   mem_usage := pool.mem_usage + cost term_id posting }, .other)
    else (pool, .POSTCACHE_EXCEED_MEM_LIMIT)

/-- A call `indices_cache` makes, with its arguments. -/
inductive cache_call where
  | postcache_set_mem_limit (mem_limit : Nat)
  | term_index_get_termN
  | printf_caching_terms
  | term_index_get_df (term_id : Nat)
  | term_lookup_r (term_id : Nat)
  | term_index_get_posting (term_id : Nat)
  | printf_term (term : String) (df : Nat)
  | printf_ellipsis
  | postcache_add_term_posting (term_id : Nat) (posting : handle)
  | free (term_id : Nat)
  | printf_newline
  | printf_caching_complete (count : Nat)
  | postcache_print_mem_usage
  deriving DecidableEq, Repr

/-- The locals of the loop of `indices_cache` and the cache, with the calls
made so far. -/
structure cache_state where
  term_id : Nat
  ellp_lock : Bool
  postcache : postcache_pool
  calls : List cache_call
  deriving DecidableEq, Repr

/-- The body of the `for` loop of `indices_cache` (lines 168 to 187), run at
`s.term_id`.  The Boolean says whether the body left through `break`. -/
def cache_body (ti : term_index) (add : add_fn) (MAX_PRINT_CACHE_TERMS : Nat)
    (s : cache_state) : Bool × cache_state :=
  let term_id := s.term_id
  let df := ti.get_df term_id % UINT32_SIZE
  let term := ti.lookup_r term_id
  let c0 := s.calls ++ [cache_call.term_index_get_df term_id,
                        cache_call.term_lookup_r term_id,
                        cache_call.term_index_get_posting term_id]
  match ti.get_posting term_id with
  | some posting =>
    let pr : Bool × List cache_call :=
      if term_id < MAX_PRINT_CACHE_TERMS then
        (s.ellp_lock, [cache_call.printf_term term df])
      else if !s.ellp_lock then (true, [cache_call.printf_ellipsis])
      else (s.ellp_lock, [])
    let res := add s.postcache term_id posting
    let c1 := c0 ++ pr.2 ++ [cache_call.postcache_add_term_posting term_id posting]
    if res.2 = .POSTCACHE_EXCEED_MEM_LIMIT then
      (true, { term_id := term_id, ellp_lock := pr.1, postcache := res.1,
               calls := c1 })
    else
      (false, { term_id := term_id, ellp_lock := pr.1, postcache := res.1,
                calls := c1 ++ [cache_call.free term_id] })
  | none =>
    (false, { s with calls := c0 ++ [cache_call.free term_id] })

/-- The increment `term_id++` of a `term_id_t`. -/
def term_id_incr (s : cache_state) : cache_state :=
  { s with term_id := (s.term_id + 1) % UINT32_SIZE }

/-- The `for` loop of `indices_cache`, run for at most `fuel` iterations from
the state `s`.  The Boolean says whether the loop has been left (by the test
`term_id <= termN` or by `break`); the state is the one reached. -/
def for_loop (ti : term_index) (add : add_fn) (MAX_PRINT_CACHE_TERMS : Nat)
    (termN : Nat) : Nat → cache_state → Bool × cache_state
  | 0, s => (decide (¬ s.term_id ≤ termN), s)
  | fuel + 1, s =>
    if s.term_id ≤ termN then
      let r := cache_body ti add MAX_PRINT_CACHE_TERMS s
      if r.1 then (true, r.2)
      else for_loop ti add MAX_PRINT_CACHE_TERMS termN fuel (term_id_incr r.2)
    else (true, s)

/-- What `indices_cache` leaves behind when it returns: the bundle, the calls
made, and the count printed by the closing message. -/
structure cache_result where
  indices : indices
  calls : List cache_call
  reported : Nat
  deriving DecidableEq, Repr

/-- The state in which the loop of `indices_cache` is entered. -/
def cache_entry (i : indices) (mem_limit : Nat) : cache_state :=
  { term_id := 1, ellp_lock := false,
    postcache := postcache_set_mem_limit i.postcache mem_limit,
    calls := [cache_call.postcache_set_mem_limit mem_limit,
              cache_call.term_index_get_termN,
              cache_call.printf_caching_terms] }

/-- The function `indices_cache`, with the loop given `fuel` iterations:
`none` when the loop has not been left by then. -/
def indices_cache (ti : term_index) (add : add_fn) (MAX_PRINT_CACHE_TERMS : Nat)
    (fuel : Nat) (i : indices) (mem_limit : Nat) : Option cache_result :=
  let termN := ti.get_termN % UINT32_SIZE
  let r := for_loop ti add MAX_PRINT_CACHE_TERMS termN fuel (cache_entry i mem_limit)
  if r.1 then
    some { indices := { i with postcache := r.2.postcache },
           calls := r.2.calls ++ [cache_call.printf_newline,
                                  cache_call.printf_caching_complete r.2.term_id,
                                  cache_call.postcache_print_mem_usage],
           reported := r.2.term_id }
  else none

/-- The identifiers for which an insertion was attempted, in call order. -/
def add_attempts : List cache_call → List Nat
  | [] => []
  | cache_call.postcache_add_term_posting t _ :: cs => t :: add_attempts cs
  | _ :: cs => add_attempts cs

/-- The number of term strings fetched with `term_lookup_r`. -/
def strings_fetched (cs : List cache_call) : Nat :=
  cs.countP (fun c => match c with | cache_call.term_lookup_r _ => true | _ => false)

/-- The number of term strings released with `free`. -/
def strings_freed (cs : List cache_call) : Nat :=
  cs.countP (fun c => match c with | cache_call.free _ => true | _ => false)

/-- The identifiers held by a cache, in insertion order. -/
def cached_ids (pool : postcache_pool) : List Nat :=
  pool.trp_root.map (fun it => it.term_id)

/-! ## Vocabulary of the statements -/

/-- What a state of the loop shows apart from the progress printing: the
counter, the cache, the identifiers whose insertion was attempted, and the
numbers of term strings fetched and released. -/
def observe (s : cache_state) : Nat × postcache_pool × List Nat × Nat × Nat :=
  (s.term_id, s.postcache, add_attempts s.calls, strings_fetched s.calls,
   strings_freed s.calls)

/-- The cost identifier `t` adds to the cache: that of its posting list, and
zero when it has none. -/
def term_cost (ti : term_index) (cost : Nat → handle → Nat) (t : Nat) : Nat :=
  match ti.get_posting t with
  | some posting => cost t posting
  | none => 0

/-- The summed cost of the identifiers `1..k`. -/
def prefix_cost (ti : term_index) (cost : Nat → handle → Nat) : Nat → Nat
  | 0 => 0
  | k + 1 => prefix_cost ti cost k + term_cost ti cost (k + 1)

/-- The identifiers among `1..k` that have a posting list, in increasing
order. -/
def with_posting (ti : term_index) (k : Nat) : List Nat :=
  (List.range' 1 k).filter (fun t => (ti.get_posting t).isSome)

/-- The outcome of a loading pass: the count reported, the identifiers cached,
the memory accounted, the identifiers whose insertion was attempted, and the
numbers of term strings fetched and released. -/
def summary (r : cache_result) : Nat × List Nat × Nat × List Nat × Nat × Nat :=
  (r.reported, cached_ids r.indices.postcache, r.indices.postcache.mem_usage,
   add_attempts r.calls, strings_fetched r.calls, strings_freed r.calls)

/-- The five sub-resource opens in the order of the steps, each with the
arguments the open-mode mapping prescribes for the bundle mode. -/
def open_requests (index_path : String) : indices_open_mode → List call
  | .INDICES_OPEN_RD =>
    [call.term_index_open (index_path ++ "/term") .TERM_INDEX_OPEN_CREATE,
     call.math_index_open index_path .MATH_INDEX_READ_ONLY,
     call.keyval_db_open_under "offset.kvdb" index_path .KEYVAL_DB_OPEN_RD,
     call.blob_index_open (index_path ++ "/" ++ "url") "r",
     call.blob_index_open (index_path ++ "/" ++ "doc") "r"]
  | _ =>
    [call.term_index_open (index_path ++ "/term") .TERM_INDEX_OPEN_CREATE,
     call.math_index_open index_path .MATH_INDEX_WRITE,
     call.keyval_db_open_under "offset.kvdb" index_path .KEYVAL_DB_OPEN_WR,
     call.blob_index_open (index_path ++ "/" ++ "url") "w+",
     call.blob_index_open (index_path ++ "/" ++ "doc") "w+"]

/-- The number of opens `indices_open` gets to request: the first step whose
open fails, and five when none of the first four fails. -/
def steps_attempted (w : open_outcomes) : Nat :=
  if w.term_index = none then 1
  else if w.math_index = none then 2
  else if w.offset_db = none then 3
  else if w.blob_index_url = none then 4
  else 5

/-- The close operation that belongs to the sub-resource of step `k`. -/
def close_of_step : Nat → handle → call
  | 1 => call.term_index_close
  | 2 => call.math_index_close
  | 3 => call.keyval_db_close
  | _ => call.blob_index_close

/-- The closes of the sub-resources opened by steps `1..n`, in step order,
each on the handle its open returned. -/
def closes_upto (w : open_outcomes) (n : Nat) : List call :=
  (List.range' 1 n).filterMap (fun j => (w.step j).map (close_of_step j))

/-! ## Concrete collaborators used as test inputs -/

/-- A term index with `n` terms whose posting lists are given by `posting`. -/
def mk_term_index (n : Nat) (posting : Nat → Option handle) : term_index :=
  { get_termN := n, get_df := fun _ => 1, lookup_r := fun _ => "t",
    get_posting := posting }

/-- Scenario C: four terms, each with a posting list. -/
def four_terms : term_index := mk_term_index 4 (fun t => some t)

/-- Scenario C: every insertion costs 300. -/
def cost_300 : add_fn := postcache_add_term_posting (fun _ _ => 300)

/-- A term index that reports the largest term count a `uint32_t` holds and
has no posting list at all. -/
def max_terms_no_posting : term_index :=
  mk_term_index 4294967295 (fun _ => none)

/-- The opens against a root directory without `offset.kvdb`: the term index
and the math index open, the offset store does not. -/
def offset_db_missing : open_outcomes :=
  { term_index := some 11, math_index := some 22, offset_db := none,
    blob_index_url := some 44, blob_index_txt := some 55 }

/-- Some content of uninitialised memory for a `struct postcache_pool`. -/
def junk_pool : postcache_pool :=
  { trp_root := [⟨9, 9⟩], mem_usage := 7, mem_limit := 8 }

/-- An empty bundle: the result of `indices_init` on zeroed memory. -/
def empty_indices : indices :=
  { ti := none, mi := none, ofs_db := none, url_bi := none, txt_bi := none,
    postcache := { trp_root := [], mem_usage := 0, mem_limit := 0 } }


/-! ## Theorems: opening and closing the bundle -/

/-- C1: no-rollback open.  If the first failing step of `indices_open` is
step `k`, the slots of steps `1..k-1` hold exactly the handles those opens
returned, the slots of steps `k..5` are absent, and the opens invoked are
exactly those of steps `1..k`: none after step `k`. -/
theorem indices_open_no_rollback (w : open_outcomes) (stack : postcache_pool)
    (i0 : indices) (index_path : String) (mode : indices_open_mode) (k : Nat)
    (hk1 : 1 ≤ k) (hk5 : k ≤ 5) (hfail : w.step k = none)
    (hfirst : ∀ j, 1 ≤ j → j < k → w.step j ≠ none) :
    (∀ j, 1 ≤ j → j < k →
      (indices_open w stack i0 index_path mode).indices.slot j = w.step j ∧
      ((indices_open w stack i0 index_path mode).indices.slot j).isSome = true) ∧
    (∀ j, k ≤ j → j ≤ 5 →
      (indices_open w stack i0 index_path mode).indices.slot j = none) ∧
    (indices_open w stack i0 index_path mode).calls.filter call.is_open =
      (open_requests index_path mode).take k := by
  obtain ⟨a, b, c, d, e⟩ := w
  have h1 := hfirst 1
  have h2 := hfirst 2
  have h3 := hfirst 3
  have h4 := hfirst 4
  interval_cases k <;> simp [open_outcomes.step] at hfail h1 h2 h3 h4 <;> subst hfail
  all_goals
    first
    | (rcases a with _ | a <;> first | contradiction | skip)
    | skip
  all_goals
    first
    | (rcases b with _ | b <;> first | contradiction | skip)
    | skip
  all_goals
    first
    | (rcases c with _ | c <;> first | contradiction | skip)
    | skip
  all_goals
    first
    | (rcases d with _ | d <;> first | contradiction | skip)
    | skip
  all_goals
    refine ⟨?_, ?_, ?_⟩
    · intro j hj1 hj2
      interval_cases j <;>
        simp [indices_open, indices_open_skip, indices.slot, open_outcomes.step]
    · intro j hj1 hj2
      interval_cases j <;>
        simp [indices_open, indices_open_skip, indices.slot, open_outcomes.step]
    · cases mode <;>
        simp [indices_open, indices_open_skip, open_requests, call.is_open,
          math_flag, keyval_flag, blob_flag, List.filter]

/-- An instance of C1: the offset store (step 3) is the first open to fail. -/
theorem indices_open_no_rollback_witness :
    (∀ j, 1 ≤ j → j < 3 →
      (indices_open offset_db_missing junk_pool empty_indices "/idx"
        .INDICES_OPEN_RD).indices.slot j = offset_db_missing.step j ∧
      ((indices_open offset_db_missing junk_pool empty_indices "/idx"
        .INDICES_OPEN_RD).indices.slot j).isSome = true) ∧
    (∀ j, 3 ≤ j → j ≤ 5 →
      (indices_open offset_db_missing junk_pool empty_indices "/idx"
        .INDICES_OPEN_RD).indices.slot j = none) ∧
    (indices_open offset_db_missing junk_pool empty_indices "/idx"
        .INDICES_OPEN_RD).calls.filter call.is_open =
      (open_requests "/idx" .INDICES_OPEN_RD).take 3 :=
  indices_open_no_rollback offset_db_missing junk_pool empty_indices "/idx"
    .INDICES_OPEN_RD 3 (by decide) (by decide) rfl
    (by intro j h1 h3; interval_cases j <;> simp [offset_db_missing, open_outcomes.step])

/-- C2: `indices_open` returns true exactly when one of the five opens fails,
and returns false exactly when all five slots of the bundle it leaves are
non-absent. -/
theorem indices_open_err_iff (w : open_outcomes) (stack : postcache_pool)
    (i0 : indices) (index_path : String) (mode : indices_open_mode) :
    ((indices_open w stack i0 index_path mode).open_err = true ↔
      ∃ k, 1 ≤ k ∧ k ≤ 5 ∧ w.step k = none) ∧
    ((indices_open w stack i0 index_path mode).open_err = false ↔
      ∀ k, 1 ≤ k → k ≤ 5 →
        ((indices_open w stack i0 index_path mode).indices.slot k).isSome = true) := by
  obtain ⟨a, b, c, d, e⟩ := w
  have hex : (∃ k, 1 ≤ k ∧ k ≤ 5 ∧
      (open_outcomes.mk a b c d e).step k = none) ↔
      (a = none ∨ b = none ∨ c = none ∨ d = none ∨ e = none) := by
    constructor
    · rintro ⟨k, h1, h5, h⟩
      interval_cases k <;> simp [open_outcomes.step] at h <;> simp [h]
    · rintro (h | h | h | h | h)
      · exact ⟨1, by decide, by decide, by simp [open_outcomes.step, h]⟩
      · exact ⟨2, by decide, by decide, by simp [open_outcomes.step, h]⟩
      · exact ⟨3, by decide, by decide, by simp [open_outcomes.step, h]⟩
      · exact ⟨4, by decide, by decide, by simp [open_outcomes.step, h]⟩
      · exact ⟨5, by decide, by decide, by simp [open_outcomes.step, h]⟩
  have hall : ∀ i : indices, (∀ k, 1 ≤ k → k ≤ 5 → (i.slot k).isSome = true) ↔
      (i.ti.isSome = true ∧ i.mi.isSome = true ∧ i.ofs_db.isSome = true ∧
        i.url_bi.isSome = true ∧ i.txt_bi.isSome = true) := by
    intro i
    constructor
    · intro h
      exact ⟨h 1 (by decide) (by decide), h 2 (by decide) (by decide),
        h 3 (by decide) (by decide), h 4 (by decide) (by decide),
        h 5 (by decide) (by decide)⟩
    · rintro ⟨h1, h2, h3, h4, h5⟩ k hk1 hk5
      interval_cases k <;> simp [indices.slot, *]
  rw [hex, hall]
  rcases a with _ | a <;> rcases b with _ | b <;> rcases c with _ | c <;>
    rcases d with _ | d <;> rcases e with _ | e <;>
    simp [indices_open, indices_open_skip]

/-- C3: idempotent close.  From every bundle state, after a first
`indices_close` all five slots are absent, and a second `indices_close` makes
no call at all (no sub-resource close, no cache free), leaves the state
unchanged and so leaves all five slots absent again.  On a bundle that has
only been through `indices_init` the first close already makes no call and
changes nothing. -/
theorem indices_close_idempotent (i : indices) :
    (∀ k, (indices_close i).1.slot k = none) ∧
    (∀ k, (indices_close (indices_close i).1).1.slot k = none) ∧
    (indices_close (indices_close i).1).2 = [] ∧
    (indices_close (indices_close i).1).1 = (indices_close i).1 ∧
    indices_close (indices_init i) = (indices_init i, []) := by
  have hslot : ∀ (p : postcache_pool) (k : Nat),
      (indices.mk none none none none none p).slot k = none := by
    intro p k
    unfold indices.slot
    split <;> rfl
  obtain ⟨a, b, c, d, e, ⟨root, used, limit⟩⟩ := i
  refine ⟨fun k => hslot _ k, fun k => hslot _ k, ?_, ?_, ?_⟩
  · cases root <;> simp [indices_close, close_slot, postcache_free]
  · cases root <;> simp [indices_close, close_slot, postcache_free]
  · simp [indices_close, close_slot, indices_init]

/-- C7: close after a failed open.  When `indices_open` fails at step `k`, a
following `indices_close` calls the close of each sub-resource opened by steps
`1..k-1`, once each, in step order, on the handle the open returned, and
nothing else: no close for the steps `k..5` and no `postcache_free`.  All five
slots are absent afterwards. -/
theorem indices_close_after_failed_open (w : open_outcomes)
    (stack : postcache_pool) (i0 : indices) (index_path : String)
    (mode : indices_open_mode) (k : Nat)
    (hk1 : 1 ≤ k) (hk5 : k ≤ 5) (hfail : w.step k = none)
    (hfirst : ∀ j, 1 ≤ j → j < k → w.step j ≠ none) :
    (indices_close (indices_open w stack i0 index_path mode).indices).2 =
      closes_upto w (k - 1) ∧
    call.postcache_free ∉
      (indices_close (indices_open w stack i0 index_path mode).indices).2 ∧
    (indices_open w stack i0 index_path mode).indices.postcache.trp_root = [] ∧
    ∀ j, (indices_close (indices_open w stack i0 index_path mode).indices).1.slot j
      = none := by
  have hslot : ∀ (p : postcache_pool) (j : Nat),
      (indices.mk none none none none none p).slot j = none := by
    intro p j
    unfold indices.slot
    split <;> rfl
  obtain ⟨a, b, c, d, e⟩ := w
  have h1 := hfirst 1
  have h2 := hfirst 2
  have h3 := hfirst 3
  have h4 := hfirst 4
  interval_cases k <;> simp [open_outcomes.step] at hfail h1 h2 h3 h4 <;> subst hfail
  all_goals
    first
    | (rcases a with _ | a <;> first | contradiction | skip)
    | skip
  all_goals
    first
    | (rcases b with _ | b <;> first | contradiction | skip)
    | skip
  all_goals
    first
    | (rcases c with _ | c <;> first | contradiction | skip)
    | skip
  all_goals
    first
    | (rcases d with _ | d <;> first | contradiction | skip)
    | skip
  all_goals
    refine ⟨?_, ?_, ?_, fun j => hslot _ j⟩ <;>
      simp [indices_open, indices_open_skip, indices_close, close_slot,
        closes_upto, close_of_step, open_outcomes.step, List.range', List.filterMap]

/-- The witness of C7: the open fails at the offset store (step 3); the close
releases the term index and the math index only. -/
theorem indices_close_after_failed_open_witness :
    ((indices_close (indices_open offset_db_missing junk_pool empty_indices "/idx"
        .INDICES_OPEN_RD).indices).2 = closes_upto offset_db_missing (3 - 1) ∧
    call.postcache_free ∉
      (indices_close (indices_open offset_db_missing junk_pool empty_indices "/idx"
        .INDICES_OPEN_RD).indices).2 ∧
    (indices_open offset_db_missing junk_pool empty_indices "/idx"
        .INDICES_OPEN_RD).indices.postcache.trp_root = [] ∧
    ∀ j, (indices_close (indices_open offset_db_missing junk_pool empty_indices
        "/idx" .INDICES_OPEN_RD).indices).1.slot j = none) ∧
    closes_upto offset_db_missing (3 - 1) =
      [call.term_index_close 11, call.math_index_close 22] :=
  ⟨indices_close_after_failed_open offset_db_missing junk_pool empty_indices "/idx"
    .INDICES_OPEN_RD 3 (by decide) (by decide) rfl
    (by intro j h1 h3; interval_cases j <;> simp [offset_db_missing, open_outcomes.step]),
   by decide⟩

/-- C8: open-mode mapping.  Whatever the opens return and whatever the bundle
mode, the opens `indices_open` requests are exactly these, in this order, up to
and including the first one that fails: the term index in create mode whatever
the bundle mode, then the math index, the offset store, the URL blob index and
the text blob index, each in its read-only mode (`MATH_INDEX_READ_ONLY`,
`KEYVAL_DB_OPEN_RD`, `"r"`) when the bundle mode is `INDICES_OPEN_RD` and in
its write mode (`MATH_INDEX_WRITE`, `KEYVAL_DB_OPEN_WR`, `"w+"`) for any other
mode.  The term index is always requested, and all five are requested when the
first four succeed. -/
theorem indices_open_mode_mapping (w : open_outcomes) (stack : postcache_pool)
    (i0 : indices) (index_path : String) (mode : indices_open_mode) :
    (indices_open w stack i0 index_path mode).calls.filter call.is_open =
      List.take (steps_attempted w)
        [call.term_index_open (index_path ++ "/term") .TERM_INDEX_OPEN_CREATE,
         call.math_index_open index_path
           (if mode = .INDICES_OPEN_RD then .MATH_INDEX_READ_ONLY else .MATH_INDEX_WRITE),
         call.keyval_db_open_under "offset.kvdb" index_path
           (if mode = .INDICES_OPEN_RD then .KEYVAL_DB_OPEN_RD else .KEYVAL_DB_OPEN_WR),
         call.blob_index_open (index_path ++ "/" ++ "url")
           (if mode = .INDICES_OPEN_RD then "r" else "w+"),
         call.blob_index_open (index_path ++ "/" ++ "doc")
           (if mode = .INDICES_OPEN_RD then "r" else "w+")] ∧
    ((indices_open w stack i0 index_path mode).calls.filter call.is_open).head? =
      some (call.term_index_open (index_path ++ "/term") .TERM_INDEX_OPEN_CREATE) ∧
    1 ≤ steps_attempted w ∧ steps_attempted w ≤ 5 ∧
    (∀ j, 1 ≤ j → j < steps_attempted w → w.step j ≠ none) ∧
    (steps_attempted w < 5 → w.step (steps_attempted w) = none) ∧
    ((indices_open w stack i0 index_path mode).open_err = false →
      steps_attempted w = 5) := by
  obtain ⟨a, b, c, d, e⟩ := w
  rcases a with _ | a <;> rcases b with _ | b <;> rcases c with _ | c <;>
    rcases d with _ | d <;> rcases e with _ | e <;> cases mode <;>
    refine ⟨?_, ?_, ?_, ?_, ?_, ?_, ?_⟩ <;>
    first
    | (intro j h1 h2
       simp [steps_attempted] at h2
       first
       | omega
       | (interval_cases j <;> simp [open_outcomes.step]))
    | simp [indices_open, indices_open_skip, call.is_open, steps_attempted,
        open_outcomes.step, math_flag, keyval_flag, blob_flag, List.filter, List.take]

/-! ## Lemmas on the loop of `indices_cache` -/

theorem for_loop_succ (ti : term_index) (add : add_fn) (M termN fuel : Nat)
    (s : cache_state) :
    for_loop ti add M termN (fuel + 1) s =
      if s.term_id ≤ termN then
        if (cache_body ti add M s).1 then (true, (cache_body ti add M s).2)
        else for_loop ti add M termN fuel (term_id_incr (cache_body ti add M s).2)
      else (true, s) := rfl

theorem cache_body_no_posting (ti : term_index) (add : add_fn) (M : Nat)
    (s : cache_state) (h : ti.get_posting s.term_id = none) :
    cache_body ti add M s =
      (false, { s with calls := s.calls ++
        [cache_call.term_index_get_df s.term_id, cache_call.term_lookup_r s.term_id,
         cache_call.term_index_get_posting s.term_id, cache_call.free s.term_id] }) := by
  simp [cache_body, h]

theorem add_attempts_append (xs ys : List cache_call) :
    add_attempts (xs ++ ys) = add_attempts xs ++ add_attempts ys := by
  induction xs with
  | nil => rfl
  | cons c cs ih => cases c <;> simp [add_attempts, ih]

/-- Skipping: from a state whose next `n` identifiers (counted modulo 2^32)
have no posting list, with the largest term count, `n` iterations change
neither the cache nor the list of attempted insertions, and move the counter
on by `n` modulo 2^32. -/
theorem for_loop_skip (ti : term_index) (add : add_fn) (M : Nat) (n : Nat) :
    ∀ (fuel : Nat) (s : cache_state), s.term_id < UINT32_SIZE →
      (∀ j, j < n → ti.get_posting ((s.term_id + j) % UINT32_SIZE) = none) →
      ∃ cs, add_attempts cs = [] ∧
        for_loop ti add M 4294967295 (fuel + n) s =
          for_loop ti add M 4294967295 fuel
            { s with term_id := (s.term_id + n) % UINT32_SIZE,
                     calls := s.calls ++ cs } := by
  induction n with
  | zero =>
    intro fuel s hs _
    exact ⟨[], rfl, by simp [Nat.mod_eq_of_lt hs]⟩
  | succ n ih =>
    intro fuel s hs hp
    have h0 : ti.get_posting s.term_id = none := by
      have := hp 0 (Nat.succ_pos n)
      simpa [Nat.mod_eq_of_lt hs] using this
    have hle : s.term_id ≤ 4294967295 := by
      unfold UINT32_SIZE at hs
      omega
    obtain ⟨cs, hcs, heq⟩ := ih fuel
      (term_id_incr (cache_body ti add M s).2)
      (by simp [term_id_incr]; exact Nat.mod_lt _ (by decide))
      (by
        intro j hj
        have := hp (j + 1) (by omega)
        simp only [term_id_incr, cache_body_no_posting ti add M s h0]
        rw [Nat.mod_add_mod]
        rw [← this]
        congr 2
        omega)
    refine ⟨[cache_call.term_index_get_df s.term_id, cache_call.term_lookup_r s.term_id,
         cache_call.term_index_get_posting s.term_id, cache_call.free s.term_id] ++ cs,
      by simp [add_attempts_append, hcs, add_attempts], ?_⟩
    rw [show fuel + (n + 1) = (fuel + n) + 1 from rfl, for_loop_succ, if_pos hle]
    rw [heq]
    simp only [cache_body_no_posting ti add M s h0, term_id_incr]
    simp only [Bool.false_eq_true, if_false, List.append_assoc]
    congr 2
    rw [Nat.mod_add_mod]
    congr 1
    omega

/-- With the largest term count and no posting list anywhere the loop is
never left, whatever number of iterations it is given. -/
theorem for_loop_max_termN_running (add : add_fn) (M fuel : Nat) (s : cache_state)
    (hs : s.term_id < UINT32_SIZE) :
    (for_loop max_terms_no_posting add M 4294967295 fuel s).1 = false := by
  obtain ⟨cs, _, heq⟩ := for_loop_skip max_terms_no_posting add M fuel 0 s hs
    (fun _ _ => rfl)
  rw [Nat.zero_add] at heq
  rw [heq]
  have : (s.term_id + fuel) % UINT32_SIZE < UINT32_SIZE := Nat.mod_lt _ (by decide)
  simp only [for_loop, decide_eq_false_iff_not, not_not]
  unfold UINT32_SIZE at this ⊢
  omega

theorem strings_fetched_append (xs ys : List cache_call) :
    strings_fetched (xs ++ ys) = strings_fetched xs + strings_fetched ys := by
  simp [strings_fetched, List.countP_append]

theorem strings_freed_append (xs ys : List cache_call) :
    strings_freed (xs ++ ys) = strings_freed xs + strings_freed ys := by
  simp [strings_freed, List.countP_append]

/-- What the body of the loop does to the observation of a state does not
depend on the printing threshold or on what has been printed. -/
theorem cache_body_observe (ti : term_index) (add : add_fn) (M M2 : Nat)
    (s s2 : cache_state) (h : observe s = observe s2) :
    (cache_body ti add M s).1 = (cache_body ti add M2 s2).1 ∧
    observe (cache_body ti add M s).2 = observe (cache_body ti add M2 s2).2 := by
  obtain ⟨t, lock, pool, calls⟩ := s
  obtain ⟨t2, lock2, pool2, calls2⟩ := s2
  simp only [observe, Prod.mk.injEq] at h
  obtain ⟨rfl, rfl, ha, hf, hr⟩ := h
  cases hp : ti.get_posting t with
  | none =>
    rw [cache_body_no_posting ti add M _ hp, cache_body_no_posting ti add M2 _ hp]
    simp only [observe, add_attempts_append, strings_fetched_append,
      strings_freed_append, ha, hf, hr]
    simp [add_attempts, strings_fetched, strings_freed]
  | some posting =>
    by_cases hx : (add pool t posting).2 = postcache_err.POSTCACHE_EXCEED_MEM_LIMIT
    · simp only [cache_body, hp, hx, if_true, observe, add_attempts_append,
        strings_fetched_append, strings_freed_append, ha, hf, hr, true_and]
      split_ifs <;> simp [add_attempts, strings_fetched, strings_freed]
    · simp only [cache_body, hp, hx, if_false, observe, add_attempts_append,
        strings_fetched_append, strings_freed_append, ha, hf, hr, true_and]
      split_ifs <;> simp [add_attempts, strings_fetched, strings_freed]

/-- Whether the loop has been left and the observation of the state reached do
not depend on the printing threshold or on what has been printed. -/
theorem for_loop_observe (ti : term_index) (add : add_fn) (M M2 termN : Nat) :
    ∀ (fuel : Nat) (s s2 : cache_state), observe s = observe s2 →
      (for_loop ti add M termN fuel s).1 = (for_loop ti add M2 termN fuel s2).1 ∧
      observe (for_loop ti add M termN fuel s).2 =
        observe (for_loop ti add M2 termN fuel s2).2 := by
  intro fuel
  induction fuel with
  | zero =>
    intro s s2 h
    have ht : s.term_id = s2.term_id := congrArg Prod.fst h
    exact ⟨by simp [for_loop, ht], by simpa [for_loop] using h⟩
  | succ fuel ih =>
    intro s s2 h
    have ht : s.term_id = s2.term_id := congrArg Prod.fst h
    obtain ⟨hb1, hb2⟩ := cache_body_observe ti add M M2 s s2 h
    have hinc : observe (term_id_incr (cache_body ti add M s).2) =
        observe (term_id_incr (cache_body ti add M2 s2).2) := by
      simp only [observe, Prod.mk.injEq] at hb2
      simp only [observe, term_id_incr, Prod.mk.injEq]
      exact ⟨by rw [hb2.1], hb2.2.1, hb2.2.2.1, hb2.2.2.2.1, hb2.2.2.2.2⟩
    rw [for_loop_succ, for_loop_succ, ← ht, ← hb1]
    by_cases hle : s.term_id ≤ termN
    · rw [if_pos hle, if_pos hle]
      cases hb : (cache_body ti add M s).1 with
      | true => exact ⟨rfl, hb2⟩
      | false => exact ih _ _ hinc
    · rw [if_neg hle, if_neg hle]
      exact ⟨rfl, h⟩

/-- The outcome of a loading pass does not depend on the printing threshold
`MAX_PRINT_CACHE_TERMS`. -/
theorem indices_cache_summary_indep (ti : term_index) (add : add_fn) (M M2 fuel : Nat)
    (i : indices) (mem_limit : Nat) :
    (indices_cache ti add M fuel i mem_limit).map summary =
      (indices_cache ti add M2 fuel i mem_limit).map summary := by
  obtain ⟨h1, h2⟩ := for_loop_observe ti add M M2 (ti.get_termN % UINT32_SIZE) fuel
    (cache_entry i mem_limit) (cache_entry i mem_limit) rfl
  simp only [observe, Prod.mk.injEq] at h2
  obtain ⟨ht, hp, ha, hf, hr⟩ := h2
  unfold indices_cache
  simp only [← h1]
  cases hfin : (for_loop ti add M (ti.get_termN % UINT32_SIZE) fuel
      (cache_entry i mem_limit)).1 with
  | false => simp
  | true =>
    simp [summary, add_attempts_append, strings_fetched_append, strings_freed_append,
      ht, hp, ha, hf, hr]

/-! ## The loop when the counter cannot wrap -/

theorem cache_body_term_id (ti : term_index) (add : add_fn) (M : Nat)
    (s : cache_state) : (cache_body ti add M s).2.term_id = s.term_id := by
  cases hp : ti.get_posting s.term_id with
  | none => rw [cache_body_no_posting ti add M s hp]
  | some posting =>
    simp only [cache_body, hp]
    split_ifs <;> rfl

/-- Away from the last value of the counter, an identifier without a posting
list is skipped: no insertion is attempted, the cache is left as it was, the
body does not break, and the loop goes on at the next identifier. -/
theorem for_loop_skips_absent (ti : term_index) (add : add_fn) (M termN fuel : Nat)
    (s : cache_state) (hle : s.term_id ≤ termN)
    (hp : ti.get_posting s.term_id = none) (hw : s.term_id + 1 < UINT32_SIZE) :
    (cache_body ti add M s).1 = false ∧
    (cache_body ti add M s).2.postcache = s.postcache ∧
    add_attempts (cache_body ti add M s).2.calls = add_attempts s.calls ∧
    for_loop ti add M termN (fuel + 1) s =
      for_loop ti add M termN fuel
        { (cache_body ti add M s).2 with term_id := s.term_id + 1 } := by
  have hb := cache_body_no_posting ti add M s hp
  refine ⟨by rw [hb], by rw [hb], ?_, ?_⟩
  · rw [hb]
    simp [add_attempts_append, add_attempts]
  · rw [for_loop_succ, if_pos hle, hb]
    simp only [Bool.false_eq_true, if_false, term_id_incr]
    rw [Nat.mod_eq_of_lt hw]

/-- When the term count is below 4294967295 the loop is left within
`termN + 1 - term_id` iterations, whatever the insertions return. -/
theorem for_loop_leaves (ti : term_index) (add : add_fn) (M termN : Nat)
    (hN : termN + 1 < UINT32_SIZE) :
    ∀ (fuel : Nat) (s : cache_state), s.term_id ≤ termN + 1 →
      termN + 1 - s.term_id ≤ fuel →
      (for_loop ti add M termN fuel s).1 = true := by
  intro fuel
  induction fuel with
  | zero =>
    intro s h1 h2
    have : ¬ s.term_id ≤ termN := by omega
    simp [for_loop, this]
  | succ fuel ih =>
    intro s h1 h2
    rw [for_loop_succ]
    by_cases hle : s.term_id ≤ termN
    · rw [if_pos hle]
      cases hb : (cache_body ti add M s).1 with
      | true => rfl
      | false =>
        have hmod : (s.term_id + 1) % UINT32_SIZE = s.term_id + 1 :=
          Nat.mod_eq_of_lt (by omega)
        have ht : (term_id_incr (cache_body ti add M s).2).term_id = s.term_id + 1 := by
          show ((cache_body ti add M s).2.term_id + 1) % UINT32_SIZE = s.term_id + 1
          rw [cache_body_term_id, hmod]
        exact ih _ (by rw [ht]; omega) (by rw [ht]; omega)
    · rw [if_neg hle]

/-- When the term count is below 4294967295, `indices_cache` returns: its loop
is left after at most `termN` iterations. -/
theorem indices_cache_returns (ti : term_index) (add : add_fn) (M : Nat) (i : indices)
    (mem_limit : Nat) (hN : ti.get_termN + 1 < UINT32_SIZE) :
    (indices_cache ti add M ti.get_termN i mem_limit).isSome = true := by
  have hmod : ti.get_termN % UINT32_SIZE = ti.get_termN :=
    Nat.mod_eq_of_lt (by omega)
  have h := for_loop_leaves ti add M ti.get_termN hN ti.get_termN
    (cache_entry i mem_limit) (by show 1 ≤ ti.get_termN + 1; omega)
    (by show ti.get_termN + 1 - 1 ≤ ti.get_termN; omega)
  unfold indices_cache
  simp only [hmod, h, if_true, Option.isSome_some]

/-! ## The loading pass as a prefix of the identifiers -/

theorem with_posting_succ (ti : term_index) (k : Nat) :
    with_posting ti (k + 1) =
      with_posting ti k ++ (if (ti.get_posting (k + 1)).isSome then [k + 1] else []) := by
  unfold with_posting
  rw [List.range'_concat, List.filter_append]
  have : 1 + 1 * k = k + 1 := by omega
  rw [this]
  by_cases h : (ti.get_posting (k + 1)).isSome = true <;> simp [h]

theorem prefix_cost_mono (ti : term_index) (cost : Nat → handle → Nat) (a : Nat) :
    ∀ d, prefix_cost ti cost a ≤ prefix_cost ti cost (a + d) := by
  intro d
  induction d with
  | zero => exact Nat.le_refl _
  | succ d ih =>
    show prefix_cost ti cost a ≤ prefix_cost ti cost (a + d) + term_cost ti cost (a + d + 1)
    omega

theorem for_loop_done (ti : term_index) (add : add_fn) (M termN fuel : Nat)
    (s : cache_state) (h : ¬ s.term_id ≤ termN) :
    for_loop ti add M termN fuel s = (true, s) := by
  cases fuel with
  | zero => simp [for_loop, h]
  | succ fuel => rw [for_loop_succ, if_neg h]

theorem cache_body_fits (ti : term_index) (cost : Nat → handle → Nat) (M : Nat)
    (s : cache_state) (posting : handle) (hp : ti.get_posting s.term_id = some posting)
    (hfit : s.postcache.mem_usage + cost s.term_id posting ≤ s.postcache.mem_limit) :
    (cache_body ti (postcache_add_term_posting cost) M s).1 = false ∧
    (cache_body ti (postcache_add_term_posting cost) M s).2.postcache =
      { trp_root := s.postcache.trp_root ++ [⟨s.term_id, posting⟩],
        mem_usage := s.postcache.mem_usage + cost s.term_id posting,
        mem_limit := s.postcache.mem_limit } ∧
    add_attempts (cache_body ti (postcache_add_term_posting cost) M s).2.calls =
      add_attempts s.calls ++ [s.term_id] := by
  refine ⟨?_, ?_, ?_⟩
  · simp [cache_body, hp, postcache_add_term_posting, hfit]
  · simp [cache_body, hp, postcache_add_term_posting, hfit]
  · simp only [cache_body, hp, postcache_add_term_posting, hfit, if_true]
    split_ifs <;> simp [add_attempts_append, add_attempts]

theorem cache_body_exceeds (ti : term_index) (cost : Nat → handle → Nat) (M : Nat)
    (s : cache_state) (posting : handle) (hp : ti.get_posting s.term_id = some posting)
    (hfit : ¬ s.postcache.mem_usage + cost s.term_id posting ≤ s.postcache.mem_limit) :
    (cache_body ti (postcache_add_term_posting cost) M s).1 = true ∧
    (cache_body ti (postcache_add_term_posting cost) M s).2.postcache = s.postcache ∧
    add_attempts (cache_body ti (postcache_add_term_posting cost) M s).2.calls =
      add_attempts s.calls ++ [s.term_id] := by
  refine ⟨?_, ?_, ?_⟩
  · simp [cache_body, hp, postcache_add_term_posting, hfit]
  · simp [cache_body, hp, postcache_add_term_posting, hfit]
  · simp only [cache_body, hp, postcache_add_term_posting, hfit, if_false]
    split_ifs <;> simp [add_attempts_append, add_attempts]

theorem for_loop_continue (ti : term_index) (add : add_fn) (M termN fuel : Nat)
    (s : cache_state) (hle : s.term_id ≤ termN) (hb : (cache_body ti add M s).1 = false) :
    for_loop ti add M termN (fuel + 1) s =
      for_loop ti add M termN fuel (term_id_incr (cache_body ti add M s).2) := by
  rw [for_loop_succ, if_pos hle, hb]
  rfl

theorem for_loop_break (ti : term_index) (add : add_fn) (M termN fuel : Nat)
    (s : cache_state) (hle : s.term_id ≤ termN) (hb : (cache_body ti add M s).1 = true) :
    for_loop ti add M termN (fuel + 1) s = (true, (cache_body ti add M s).2) := by
  rw [for_loop_succ, if_pos hle, hb]
  rfl

/-- The loop invariant of the loading pass when the counter cannot wrap: from
identifier `a + 1`, with the identifiers of `1..a` that have a posting list
cached and their cost accounted, the loop is left with the identifiers of
`1..k` cached, where `1..k` is the longest prefix whose cost fits in the
limit. -/
theorem for_loop_prefix (ti : term_index) (cost : Nat → handle → Nat) (M N L k : Nat)
    (hN : N + 1 < UINT32_SIZE) (hk : k ≤ N) (hfit : prefix_cost ti cost k ≤ L)
    (hmax : k < N → L < prefix_cost ti cost (k + 1)) :
    ∀ (d a fuel : Nat) (s : cache_state), a + d = k → s.term_id = a + 1 →
      cached_ids s.postcache = with_posting ti a →
      s.postcache.mem_usage = prefix_cost ti cost a →
      s.postcache.mem_limit = L →
      add_attempts s.calls = with_posting ti a →
      N - a ≤ fuel →
      ∃ s2, for_loop ti (postcache_add_term_posting cost) M N fuel s = (true, s2) ∧
        s2.term_id = k + 1 ∧
        cached_ids s2.postcache = with_posting ti k ∧
        s2.postcache.mem_usage = prefix_cost ti cost k ∧
        add_attempts s2.calls = with_posting ti (if k < N then k + 1 else k) := by
  intro d
  induction d with
  | zero =>
    intro a fuel s had ht hc hu hl hat hf
    have hak : a = k := by omega
    subst hak
    by_cases hkN : a < N
    · obtain ⟨f, rfl⟩ : ∃ f, fuel = f + 1 := ⟨fuel - 1, by omega⟩
      have hle : s.term_id ≤ N := by omega
      have hpc : prefix_cost ti cost (a + 1) =
          prefix_cost ti cost a + term_cost ti cost (a + 1) := rfl
      have hL := hmax hkN
      cases hp : ti.get_posting s.term_id with
      | none =>
        exfalso
        have hp2 := hp
        rw [ht] at hp2
        have hc0 : term_cost ti cost (a + 1) = 0 := by
          simp only [term_cost, hp2]
        omega
      | some posting =>
        have hp2 := hp
        rw [ht] at hp2
        have hc1 : term_cost ti cost (a + 1) = cost (a + 1) posting := by
          simp only [term_cost, hp2]
        obtain ⟨b1, b2, b3⟩ := cache_body_exceeds ti cost M s posting hp
          (by rw [hu, hl, ht]; omega)
        refine ⟨_, for_loop_break ti _ M N f s hle b1, ?_, ?_, ?_, ?_⟩
        · rw [cache_body_term_id, ht]
        · rw [b2, hc]
        · rw [b2, hu]
        · rw [b3, hat, if_pos hkN, with_posting_succ, ht]
          simp [hp2]
    · have hnle : ¬ s.term_id ≤ N := by omega
      refine ⟨s, for_loop_done ti _ M N fuel s hnle, ht, hc, hu, ?_⟩
      rw [if_neg hkN, hat]
  | succ d ih =>
    intro a fuel s had ht hc hu hl hat hf
    obtain ⟨f, rfl⟩ : ∃ f, fuel = f + 1 := ⟨fuel - 1, by omega⟩
    have hle : s.term_id ≤ N := by omega
    have hmod : (s.term_id + 1) % UINT32_SIZE = a + 1 + 1 := by
      rw [ht]
      exact Nat.mod_eq_of_lt (by omega)
    have hpc : prefix_cost ti cost (a + 1) =
        prefix_cost ti cost a + term_cost ti cost (a + 1) := rfl
    have hmono := prefix_cost_mono ti cost (a + 1) d
    have hak : a + 1 + d = k := by omega
    rw [hak] at hmono
    have hid : (term_id_incr (cache_body ti (postcache_add_term_posting cost) M s).2).term_id
        = a + 1 + 1 := by
      show ((cache_body ti (postcache_add_term_posting cost) M s).2.term_id + 1)
        % UINT32_SIZE = a + 1 + 1
      rw [cache_body_term_id, hmod]
    cases hp : ti.get_posting s.term_id with
    | none =>
      have hp2 := hp
      rw [ht] at hp2
      have hc0 : term_cost ti cost (a + 1) = 0 := by
        simp only [term_cost, hp2]
      have hb := cache_body_no_posting ti (postcache_add_term_posting cost) M s hp
      have b1 : (cache_body ti (postcache_add_term_posting cost) M s).1 = false := by
        rw [hb]
      have b2 : (cache_body ti (postcache_add_term_posting cost) M s).2.postcache
          = s.postcache := by rw [hb]
      have b3 : add_attempts (cache_body ti (postcache_add_term_posting cost) M s).2.calls
          = add_attempts s.calls := by
        rw [hb]
        simp [add_attempts_append, add_attempts]
      have hw : with_posting ti (a + 1) = with_posting ti a := by
        rw [with_posting_succ]
        simp [hp2]
      obtain ⟨s2, e, r1, r2, r3, r4⟩ := ih (a + 1) f
        (term_id_incr (cache_body ti (postcache_add_term_posting cost) M s).2)
        hak hid
        (by show cached_ids (cache_body ti (postcache_add_term_posting cost) M s).2.postcache
              = with_posting ti (a + 1)
            rw [b2, hc, hw])
        (by show (cache_body ti (postcache_add_term_posting cost) M s).2.postcache.mem_usage
              = prefix_cost ti cost (a + 1)
            rw [b2, hu, hpc, hc0]
            rfl)
        (by show (cache_body ti (postcache_add_term_posting cost) M s).2.postcache.mem_limit
              = L
            rw [b2, hl])
        (by show add_attempts (cache_body ti (postcache_add_term_posting cost) M s).2.calls
              = with_posting ti (a + 1)
            rw [b3, hat, hw])
        (by omega)
      exact ⟨s2, (for_loop_continue ti _ M N f s hle b1).trans e, r1, r2, r3, r4⟩
    | some posting =>
      have hp2 := hp
      rw [ht] at hp2
      have hc1 : term_cost ti cost (a + 1) = cost (a + 1) posting := by
        simp only [term_cost, hp2]
      obtain ⟨b1, b2, b3⟩ := cache_body_fits ti cost M s posting hp
        (by rw [hu, hl, ht]; omega)
      have hw : with_posting ti (a + 1) = with_posting ti a ++ [a + 1] := by
        rw [with_posting_succ]
        simp [hp2]
      obtain ⟨s2, e, r1, r2, r3, r4⟩ := ih (a + 1) f
        (term_id_incr (cache_body ti (postcache_add_term_posting cost) M s).2)
        hak hid
        (by show cached_ids (cache_body ti (postcache_add_term_posting cost) M s).2.postcache
              = with_posting ti (a + 1)
            rw [b2, hw, ← hc, ht]
            simp [cached_ids])
        (by show (cache_body ti (postcache_add_term_posting cost) M s).2.postcache.mem_usage
              = prefix_cost ti cost (a + 1)
            rw [b2, hpc, hc1, ← hu, ht])
        (by show (cache_body ti (postcache_add_term_posting cost) M s).2.postcache.mem_limit
              = L
            rw [b2, hl])
        (by show add_attempts (cache_body ti (postcache_add_term_posting cost) M s).2.calls
              = with_posting ti (a + 1)
            rw [b3, hat, hw, ht])
        (by omega)
      exact ⟨s2, (for_loop_continue ti _ M N f s hle b1).trans e, r1, r2, r3, r4⟩

/-- Monotonic early exit when the counter cannot wrap (term count below
4294967295): starting from an empty cache with nothing used, with `1..k` the
longest prefix of `1..N` whose summed cost is within the limit, `indices_cache`
returns after at most `N` iterations having cached exactly the identifiers of
`1..k` that have a posting list, in increasing order and once each; the
insertions attempted are those and, when `k < N`, the one of `k + 1`, and none
beyond. -/
theorem indices_cache_prefix (ti : term_index) (cost : Nat → handle → Nat) (M : Nat)
    (i : indices) (L k : Nat) (hN : ti.get_termN + 1 < UINT32_SIZE)
    (hempty : i.postcache.trp_root = []) (hused : i.postcache.mem_usage = 0)
    (hk : k ≤ ti.get_termN) (hfit : prefix_cost ti cost k ≤ L)
    (hmax : k < ti.get_termN → L < prefix_cost ti cost (k + 1)) :
    ∃ r, indices_cache ti (postcache_add_term_posting cost) M ti.get_termN i L = some r ∧
      cached_ids r.indices.postcache = with_posting ti k ∧
      r.indices.postcache.mem_usage = prefix_cost ti cost k ∧
      add_attempts r.calls = with_posting ti (if k < ti.get_termN then k + 1 else k) ∧
      r.reported = k + 1 := by
  have hmod : ti.get_termN % UINT32_SIZE = ti.get_termN :=
    Nat.mod_eq_of_lt (by omega)
  obtain ⟨s2, e, r1, r2, r3, r4⟩ := for_loop_prefix ti cost M ti.get_termN L k hN hk hfit
    hmax k 0 ti.get_termN (cache_entry i L) (by omega) rfl
    (by show cached_ids (postcache_set_mem_limit i.postcache L) = with_posting ti 0
        simp [cached_ids, postcache_set_mem_limit, hempty, with_posting])
    (by show (postcache_set_mem_limit i.postcache L).mem_usage = prefix_cost ti cost 0
        simp [postcache_set_mem_limit, hused, prefix_cost])
    rfl
    (by show add_attempts (cache_entry i L).calls = with_posting ti 0
        simp [cache_entry, add_attempts, with_posting])
    (by omega)
  have hres : indices_cache ti (postcache_add_term_posting cost) M ti.get_termN i L =
      some { indices := { i with postcache := s2.postcache },
             calls := s2.calls ++ [cache_call.printf_newline,
                                   cache_call.printf_caching_complete s2.term_id,
                                   cache_call.postcache_print_mem_usage],
             reported := s2.term_id } := by
    unfold indices_cache
    simp only [hmod, e, if_true]
  refine ⟨_, hres, r2, r3, ?_, r1⟩
  show add_attempts (s2.calls ++ _) = _
  rw [add_attempts_append, r4]
  simp [add_attempts]

/-! ## Theorems: the cache loader -/

/-- C10 at the failing input `termN = 4294967295` with no posting list at any
identifier (so no insertion is made and none signals `ExceedsLimit`):
`indices_cache` does not return, however many iterations the loop is given,
because `term_id <= termN` holds for every value of the 32-bit counter. -/
theorem indices_cache_never_returns_at_max_termN (add : add_fn) (M fuel : Nat)
    (i : indices) (mem_limit : Nat) :
    indices_cache max_terms_no_posting add M fuel i mem_limit = none := by
  have h := for_loop_max_termN_running add M fuel (cache_entry i mem_limit)
    (by simp [cache_entry, UINT32_SIZE])
  have hN : max_terms_no_posting.get_termN % UINT32_SIZE = 4294967295 := by decide
  simp only [indices_cache, hN, h]
  simp

/-- C5 at its own witnesses: with limit 1000 and four terms costing 300 each,
three terms are cached and the count reported is 4; with limit 0 nothing is
cached and the count reported is 1; with no term at all the count reported is
again 1.  The count printed is the loop counter at exit, one more than the
number of terms cached. -/
theorem indices_cache_reports_loop_counter (M : Nat) :
    (indices_cache four_terms cost_300 M 4 empty_indices 1000).map summary =
      some (4, [1, 2, 3], 900, [1, 2, 3, 4], 4, 3) ∧
    (indices_cache four_terms cost_300 M 4 empty_indices 0).map summary =
      some (1, [], 0, [1], 1, 0) ∧
    (indices_cache (mk_term_index 0 (fun _ => none)) cost_300 M 0 empty_indices 0).map
      summary = some (1, [], 0, [], 0, 0) := by
  rw [indices_cache_summary_indep four_terms cost_300 M 0 4 empty_indices 1000,
    indices_cache_summary_indep four_terms cost_300 M 0 4 empty_indices 0,
    indices_cache_summary_indep (mk_term_index 0 (fun _ => none)) cost_300 M 0 0
      empty_indices 0]
  exact ⟨rfl, rfl, rfl⟩

/-- C9 at the failing input (one term with a posting list, limit 0): the pass
stops on `ExceedsLimit` with one term string fetched and none released. -/
theorem indices_cache_leaks_term_on_break (M : Nat) :
    (indices_cache (mk_term_index 1 (fun t => some t)) cost_300 M 1 empty_indices 0).map
      summary = some (1, [], 0, [1], 1, 0) := by
  rw [indices_cache_summary_indep (mk_term_index 1 (fun t => some t)) cost_300 M 0 1
    empty_indices 0]
  rfl

/-- C6 at the failing input: term count 4294967295 and no posting list
anywhere, so no insertion ever signals `ExceedsLimit`.  After 4294967294
iterations the loop is at identifier `t = 4294967295`, which has no posting
list; the iteration for `t` is skipped without a break, and the pass goes on
to identifier 0, not to `t + 1`: the loop is still running there. -/
theorem indices_cache_skip_wraps_to_zero (add : add_fn) (M : Nat) (i : indices)
    (mem_limit : Nat) :
    (for_loop max_terms_no_posting add M 4294967295 4294967294
        (cache_entry i mem_limit)).2.term_id = 4294967295 ∧
    max_terms_no_posting.get_posting 4294967295 = none ∧
    (for_loop max_terms_no_posting add M 4294967295 4294967295
        (cache_entry i mem_limit)).2.term_id = 0 ∧
    (for_loop max_terms_no_posting add M 4294967295 4294967295
        (cache_entry i mem_limit)).1 = false := by
  have hs : (cache_entry i mem_limit).term_id < UINT32_SIZE := by
    show (1 : Nat) < 4294967296
    omega
  obtain ⟨cs1, _, h1⟩ := for_loop_skip max_terms_no_posting add M 4294967294 0
    (cache_entry i mem_limit) hs (fun _ _ => rfl)
  obtain ⟨cs2, _, h2⟩ := for_loop_skip max_terms_no_posting add M 4294967295 0
    (cache_entry i mem_limit) hs (fun _ _ => rfl)
  rw [Nat.zero_add] at h1 h2
  have h0 : ∀ s : cache_state, for_loop max_terms_no_posting add M 4294967295 0 s =
      (decide (¬ s.term_id ≤ 4294967295), s) := fun _ => rfl
  rw [h1, h2, h0, h0]
  have ht : (cache_entry i mem_limit).term_id = 1 := rfl
  dsimp only
  rw [ht]
  refine ⟨by decide, rfl, by decide, by decide⟩

end Indices
